import Mathlib

/-!
Shallow embedding of the inventory / reservation / fine engine of the
`library` Django application (`library/models.py`, `library/views.py`).

Timestamps are integers counting minutes; a calendar date is the floor of a
timestamp by 1440 minutes, matching Python `datetime.date()` subtraction,
which yields whole calendar days.  Currency amounts are integers in whole
currency units (every amount in the code is a whole multiple of the 1.00/day
fine rate).  Database tables are lists of records; a Django `save()` of a
fetched row is modelled by mapping over the list at the row's primary key.
-/

namespace LibraryApp

deriving instance DecidableEq for Except

/-- Minutes per calendar day. -/
def minutesPerDay : Int := 1440

/-- Calendar date of a timestamp (floor division), as in `datetime.date()`. -/
def dateOf (t : Int) : Int := Int.fdiv t minutesPerDay

/-- `Loan.LOAN_STATUS_CHOICES` in models.py. -/
inductive LoanStatus
| active
| returned
| overdue
| lost
deriving DecidableEq

/-- `Reservation.RESERVATION_STATUS_CHOICES` in models.py. -/
inductive ReservationStatus
| pending
| available
| fulfilled
| cancelled
| expired
deriving DecidableEq

/-- `Fine.FINE_STATUS_CHOICES` in models.py. -/
inductive FineStatus
| pending
| paid
| waived
| disputed
deriving DecidableEq

/-- `Book` (models.py): the inventory fields used by the engine. -/
structure Book where
  id : Nat
  title : String
  total_copies : Int
  available_copies : Int
deriving DecidableEq

/-- `UserProfile` (models.py): the per-borrower `loan_limit` field. -/
structure UserProfile where
  userId : Nat
  loan_limit : Int
deriving DecidableEq

/-- `Loan` (models.py). -/
structure Loan where
  id : Nat
  bookId : Nat
  userId : Nat
  loan_date : Int
  due_date : Int
  return_date : Option Int
  status : LoanStatus
  renewal_count : Int
  fine_amount : Int
deriving DecidableEq

/-- `Reservation` (models.py). -/
structure Reservation where
  id : Nat
  bookId : Nat
  userId : Nat
  reservation_date : Int
  expiry_date : Int
  status : ReservationStatus
  notification_sent : Bool
deriving DecidableEq

/-- `Fine` (models.py). -/
structure Fine where
  id : Nat
  userId : Nat
  loanId : Nat
  amount : Int
  reason : String
  created_date : Int
  status : FineStatus
deriving DecidableEq

/-- The relational store: one list per table, plus fresh primary keys. -/
structure State where
  books : List Book
  profiles : List UserProfile
  loans : List Loan
  reservations : List Reservation
  fines : List Fine
  nextLoanId : Nat
  nextResId : Nat
  nextFineId : Nat
deriving DecidableEq

/-- Saving a fetched `Loan` row: replace the row with the given primary key. -/
def updateLoan (ls : List Loan) (lid : Nat) (l2 : Loan) : List Loan :=
  ls.map (fun x => if x.id == lid then l2 else x)

/-- Saving a fetched `Book` row after mutating it in place. -/
def updateBook (bs : List Book) (bid : Nat) (f : Book → Book) : List Book :=
  bs.map (fun b => if b.id == bid then f b else b)

/-- Saving a fetched `Reservation` row. -/
def updateReservation (rs : List Reservation) (rid : Nat) (r2 : Reservation) :
    List Reservation :=
  rs.map (fun x => if x.id == rid then r2 else x)

/-- `Loan.is_overdue` (models.py): a returned loan is never overdue. -/
def Loan.is_overdue (l : Loan) (now : Int) : Bool :=
  if l.status == .returned then false else decide (l.due_date < now)

/-- `Loan.days_overdue` (models.py): whole calendar days past the due date. -/
def Loan.days_overdue (l : Loan) (now : Int) : Int :=
  if l.is_overdue now then dateOf now - dateOf l.due_date else 0

/-- `Loan.calculate_fine` (models.py).  Returns the value the method returns
together with the mutated loan object (`fine_amount` set, status flipped to
`overdue` when it was not already). -/
def Loan.calculate_fine (l : Loan) (now : Int) : Int × Loan :=
  if l.is_overdue now && !(l.status == .returned) then
    let overdue_days := l.days_overdue now
    let fine_per_day : Int := 1
    let amt := overdue_days * fine_per_day
    (amt,
      { l with
        fine_amount := amt,
        status := if !(l.status == .overdue) then .overdue else l.status })
  else (0, l)

/-- Active-loan count of a borrower,
`Loan.objects.filter(user=..., status='active').count()`. -/
def activeLoanCount (s : State) (uid : Nat) : Nat :=
  (s.loans.filter (fun l => l.userId == uid && l.status == .active)).length

/-- `Loan.can_be_renewed` (models.py). -/
def Loan.can_be_renewed (s : State) (l : Loan) (now : Int) : Bool × String :=
  if 3 ≤ l.renewal_count then (false, "Maximum renewals reached")
  else if l.is_overdue now then (false, "Cannot renew overdue book")
  else if s.reservations.any (fun r => r.bookId == l.bookId && r.status == .pending) then
    (false, "Book has pending reservations")
  else (true, "Can be renewed")

/-- `Loan.renew` (models.py): on success extends the due date by 14 days,
increments the renewal counter and saves the row; on failure returns the
blocking message and leaves the store untouched. -/
def Loan.renew (s : State) (l : Loan) (now : Int) : (Bool × String) × State :=
  let cm := Loan.can_be_renewed s l now
  if cm.1 then
    let l2 := { l with
      due_date := now + 14 * minutesPerDay,
      renewal_count := l.renewal_count + 1 }
    ((true, "Loan renewed successfully"), { s with loans := updateLoan s.loans l.id l2 })
  else ((false, cm.2), s)

/-- `Reservation.is_expired` (models.py). -/
def Reservation.is_expired (r : Reservation) (now : Int) : Bool :=
  decide (r.expiry_date < now) && !(r.status == .fulfilled) && !(r.status == .cancelled)

/-- `Book.title` of the row with the given id (Django foreign-key access). -/
def bookTitle (s : State) (bid : Nat) : String :=
  match s.books.find? (fun b => b.id == bid) with
  | some b => b.title
  | none => ""

/-- `Book.can_be_borrowed_by` (models.py).  Reads the borrower's profile for
`loan_limit`; `none` models the exception raised when the profile row is
missing.  Note: no view calls this helper. -/
def Book.can_be_borrowed_by (s : State) (book : Book) (uid : Nat) :
    Option (Bool × String) :=
  if !(book.available_copies > 0) then some (false, "Book is not available")
  else if s.loans.any (fun l =>
      l.bookId == book.id && l.userId == uid && l.status == .active) then
    some (false, "You already have this book on loan")
  else
    match s.profiles.find? (fun p => p.userId == uid) with
    | none => none
    | some prof =>
      if prof.loan_limit ≤ (activeLoanCount s uid : Int) then
        some (false, "You have reached your loan limit")
      else if s.fines.any (fun f => f.userId == uid && f.status == .pending) then
        some (false, "Please pay pending fines first")
      else some (true, "Can borrow")

/-- The borrower's `loan_limit`; 5 is the model field's default. -/
def loanLimitOf (s : State) (uid : Nat) : Int :=
  match s.profiles.find? (fun p => p.userId == uid) with
  | some p => p.loan_limit
  | none => 5

/-- `Reservation.objects.filter(book=..., status='pending')
.order_by('reservation_date').first()` — the earliest pending reservation of
a book, ties resolved in favour of the earlier row. -/
def nextPendingReservation (rs : List Reservation) (bid : Nat) : Option Reservation :=
  (rs.filter (fun r => r.bookId == bid && r.status == .pending)).foldl
    (fun acc r =>
      match acc with
      | none => some r
      | some a => if r.reservation_date < a.reservation_date then some r else acc)
    none

inductive BorrowError
| notFound
| unavailable
| alreadyBorrowed
| finesOutstanding
| loanLimitReached
deriving DecidableEq

inductive ReturnError
| notFound
deriving DecidableEq

inductive ReserveError
| notFound
| bookAvailable
| duplicateReservation
| alreadyHolding
| integrityError
deriving DecidableEq

inductive CancelError
| notFound
deriving DecidableEq

/-- `borrow_book` (views.py).  Checks, in source order: availability, an
existing active loan of the same book, pending fines, the hard cap of five
active loans.  Then creates the loan, decrements `available_copies`, marks
the borrower's own non-terminal reservation fulfilled, and finally promotes
the earliest pending reservation to `available` when a copy is still free —
without touching its `expiry_date`. -/
def borrow_book (s : State) (now : Int) (uid bid : Nat) : Except BorrowError State :=
  match s.books.find? (fun b => b.id == bid) with
  | none => .error .notFound
  | some book =>
    if book.available_copies ≤ 0 then .error .unavailable
    else if s.loans.any (fun l =>
        l.bookId == bid && l.userId == uid && l.status == .active) then
      .error .alreadyBorrowed
    else if s.fines.any (fun f => f.userId == uid && f.status == .pending) then
      .error .finesOutstanding
    else if 5 ≤ activeLoanCount s uid then .error .loanLimitReached
    else
      let newLoan : Loan :=
        { id := s.nextLoanId, bookId := bid, userId := uid, loan_date := now,
          due_date := now + 14 * minutesPerDay, return_date := none,
          status := .active, renewal_count := 0, fine_amount := 0 }
      let s1 := { s with loans := s.loans ++ [newLoan], nextLoanId := s.nextLoanId + 1 }
      let book1 := { book with available_copies := book.available_copies - 1 }
      let s2 := { s1 with books := updateBook s1.books bid (fun _ => book1) }
      let s3 :=
        match s2.reservations.find? (fun r =>
            r.bookId == bid && r.userId == uid &&
            (r.status == .pending || r.status == .available)) with
        | some r =>
          { s2 with reservations :=
              updateReservation s2.reservations r.id { r with status := .fulfilled } }
        | none => s2
      let s4 :=
        match nextPendingReservation s3.reservations bid with
        | some nr =>
          if book1.available_copies > (0 : Int) then
            { s3 with reservations :=
                updateReservation s3.reservations nr.id { nr with status := .available } }
          else s3
        | none => s3
      .ok s4

/-- `return_book` (views.py).  Looks the loan up by id, borrower and status
`active` (`get_object_or_404`), sets `return_date` and status `returned`,
then runs the fine block exactly as written — `loan.is_overdue()` is called
after the status was set to `returned`, so it is `false` and no `Fine` row is
ever created — saves the loan, increments `available_copies` and promotes the
earliest pending reservation with a fresh 7-day expiry. -/
def return_book (s : State) (now : Int) (uid lid : Nat) : Except ReturnError State :=
  match s.loans.find? (fun l =>
      l.id == lid && l.userId == uid && l.status == .active) with
  | none => .error .notFound
  | some loan =>
    let loan1 := { loan with return_date := some now, status := .returned }
    let fs :=
      if loan1.is_overdue now then
        let fl := loan1.calculate_fine now
        if fl.1 > 0 then
          let newFine : Fine :=
            { id := s.nextFineId, userId := uid, loanId := lid, amount := fl.1,
              reason := "Late return of \"" ++ bookTitle s loan.bookId ++ "\"",
              created_date := now, status := .pending }
          (fl.2, { s with fines := s.fines ++ [newFine], nextFineId := s.nextFineId + 1 })
        else (fl.2, s)
      else (loan1, s)
    let s1 := fs.2
    let s2 := { s1 with loans := updateLoan s1.loans lid fs.1 }
    let books3 := updateBook s2.books loan.bookId
      (fun b => { b with available_copies := b.available_copies + 1 })
    let s3 := { s2 with books := books3 }
    let s4 :=
      match nextPendingReservation s3.reservations loan.bookId with
      | some nr =>
        let nr2 :=
          { nr with
            status := ReservationStatus.available,
            expiry_date := now + 7 * minutesPerDay }
        { s3 with reservations := updateReservation s3.reservations nr.id nr2 }
      | none => s3
    .ok s4

/-- `reserve_book` (views.py).  The last branch models the database enforcing
the `unique_together = ['book', 'user']` constraint of `Reservation.Meta` at
row insertion: if any row — terminal or not — already pairs this book and
user, the INSERT raises an integrity error instead of creating the row. -/
def reserve_book (s : State) (now : Int) (uid bid : Nat) : Except ReserveError State :=
  match s.books.find? (fun b => b.id == bid) with
  | none => .error .notFound
  | some book =>
    if book.available_copies > 0 then .error .bookAvailable
    else if s.reservations.any (fun r =>
        r.bookId == bid && r.userId == uid &&
        (r.status == .pending || r.status == .available)) then
      .error .duplicateReservation
    else if s.loans.any (fun l =>
        l.bookId == bid && l.userId == uid && l.status == .active) then
      .error .alreadyHolding
    else if s.reservations.any (fun r => r.bookId == bid && r.userId == uid) then
      .error .integrityError
    else
      let newRes : Reservation :=
        { id := s.nextResId, bookId := bid, userId := uid, reservation_date := now,
          expiry_date := now + 7 * minutesPerDay, status := .pending,
          notification_sent := false }
      .ok { s with reservations := s.reservations ++ [newRes], nextResId := s.nextResId + 1 }

/-- `cancel_reservation` (views.py). -/
def cancel_reservation (s : State) (uid rid : Nat) : Except CancelError State :=
  match s.reservations.find? (fun r =>
      r.id == rid && r.userId == uid &&
      (r.status == .pending || r.status == .available)) with
  | none => .error .notFound
  | some r =>
    .ok { s with reservations :=
        updateReservation s.reservations rid { r with status := .cancelled } }

/-- The get-or-create-then-update of a `Fine` row keyed by `(user, loan)`
inside the `my_loans` sweep. -/
def upsertFine (s : State) (uid lid : Nat) (amt : Int) (reason : String)
    (now : Int) : State :=
  if s.fines.any (fun f => f.userId == uid && f.loanId == lid) then
    { s with fines := s.fines.map (fun f =>
        if f.userId == uid && f.loanId == lid then { f with amount := amt } else f) }
  else
    let newFine : Fine :=
      { id := s.nextFineId, userId := uid, loanId := lid, amount := amt,
        reason := reason, created_date := now, status := .pending }
    { s with fines := s.fines ++ [newFine], nextFineId := s.nextFineId + 1 }

/-- The sweep guard in `my_loans` (views.py):
`loan.status == 'active' and loan.is_overdue()`. -/
def sweepCond (now : Int) (l : Loan) : Bool :=
  l.status == .active && l.is_overdue now

/-- The body of the overdue sweep in `my_loans` (views.py) for one loan of the
snapshot: for an active overdue loan, compute the fine, upsert the `Fine`
row when the amount is positive, and save the mutated loan (status flipped to
`overdue`).  The guard reads the snapshot object, not the store. -/
def sweepLoanStep (now : Int) (uid : Nat) (s : State) (l : Loan) : State :=
  if sweepCond now l then
    let fl := l.calculate_fine now
    let s1 :=
      if fl.1 > 0 then
        upsertFine s uid l.id fl.1
          ("Late return of \"" ++ bookTitle s l.bookId ++ "\"") now
      else s
    { s1 with loans := updateLoan s1.loans l.id fl.2 }
  else s

/-- The mutating part of the `my_loans` view (views.py): the lazy
overdue-detection sweep over the borrower's loans.  The iteration order of
the snapshot does not affect the final store because each step only writes
the rows keyed by its own loan. -/
def my_loans (s : State) (now : Int) (uid : Nat) : State :=
  (s.loans.filter (fun l => l.userId == uid)).foldl (sweepLoanStep now uid) s

/-- The mutating part of the `my_reservations` view (views.py): the lazy
expiry sweep over the borrower's reservations. -/
def my_reservations (s : State) (now : Int) (uid : Nat) : State :=
  (s.reservations.filter (fun r => r.userId == uid)).foldl
    (fun acc r =>
      if r.is_expired now && (r.status == .pending || r.status == .available) then
        { acc with reservations :=
            updateReservation acc.reservations r.id { r with status := .expired } }
      else acc)
    s

/-- One engine operation, as dispatched by the URL layer. -/
inductive Op
| borrow (now : Int) (uid bid : Nat)
| ret (now : Int) (uid lid : Nat)
| renew (now : Int) (lid : Nat)
| reserve (now : Int) (uid bid : Nat)
| cancel (uid rid : Nat)
| overdueSweep (now : Int) (uid : Nat)
| expireSweep (now : Int) (uid : Nat)

/-- Run one operation; a request that errors leaves the store unchanged
(the view returns a redirect before performing any write). -/
def applyOp (s : State) : Op → State
| .borrow now uid bid =>
  match borrow_book s now uid bid with
  | .ok s2 => s2
  | .error _ => s
| .ret now uid lid =>
  match return_book s now uid lid with
  | .ok s2 => s2
  | .error _ => s
| .renew now lid =>
  match s.loans.find? (fun l => l.id == lid) with
  | some l => (Loan.renew s l now).2
  | none => s
| .reserve now uid bid =>
  match reserve_book s now uid bid with
  | .ok s2 => s2
  | .error _ => s
| .cancel uid rid =>
  match cancel_reservation s uid rid with
  | .ok s2 => s2
  | .error _ => s
| .overdueSweep now uid => my_loans s now uid
| .expireSweep now uid => my_reservations s now uid

/-- Loans of a book with status `active` — the count the spec's invariant
refers to. -/
def activeLoansOn (s : State) (bid : Nat) : Nat :=
  (s.loans.filter (fun l => l.bookId == bid && l.status == .active)).length

/-- Loans of a book that are out of the library: status `active` or
`overdue`. -/
def loansOut (s : State) (bid : Nat) : Nat :=
  (s.loans.filter (fun l =>
    l.bookId == bid && (l.status == .active || l.status == .overdue))).length

/-- The invariant exactly as the specification states it: available copies
equal total copies minus the number of `active` loans. -/
def specInvariant (s : State) : Prop :=
  ∀ b ∈ s.books, b.available_copies = b.total_copies - (activeLoansOn s b.id : Int)

/-- The invariant the code actually maintains: available copies equal total
copies minus the number of loans that are out (`active` or `overdue`). -/
def copiesInvariant (s : State) : Prop :=
  ∀ b ∈ s.books, b.available_copies = b.total_copies - (loansOut s b.id : Int)

/-- Primary keys of the loan table are distinct. -/
def loanIdsNodup (s : State) : Prop :=
  (s.loans.map Loan.id).Nodup

/-- The `Fine` rows keyed by a `(user, loan)` pair. -/
def finesFor (s : State) (uid lid : Nat) : List Fine :=
  s.fines.filter (fun f => f.userId == uid && f.loanId == lid)

instance (s : State) : Decidable (specInvariant s) := by
  unfold specInvariant; infer_instance

instance (s : State) : Decidable (copiesInvariant s) := by
  unfold copiesInvariant; infer_instance

instance (s : State) : Decidable (loanIdsNodup s) := by
  unfold loanIdsNodup; infer_instance

/-! ### Generic list lemmas used throughout the development -/

theorem length_filter_map_congr {α : Type} (p : α → Bool) (g : α → α) :
    ∀ xs : List α, (∀ x ∈ xs, p (g x) = p x) →
      ((xs.map g).filter p).length = (xs.filter p).length := by
  intro xs
  induction xs with
  | nil => intro _; rfl
  | cons x xs ih =>
    intro h
    have hx := h x (by simp)
    have hrest : ∀ y ∈ xs, p (g y) = p y := fun y hy => h y (by simp [hy])
    simp only [List.map_cons, List.filter_cons, hx]
    cases hpx : p x with
    | false => simpa using ih hrest
    | true => simpa using ih hrest

theorem filter_map_invariant {α : Type} (q : α → Bool) (g : α → α) :
    ∀ xs : List α, (∀ x ∈ xs, (q x = true → g x = x) ∧ q (g x) = q x) →
      (xs.map g).filter q = xs.filter q := by
  intro xs
  induction xs with
  | nil => intro _; rfl
  | cons x xs ih =>
    intro h
    have hx := h x (by simp)
    have hrest : ∀ y ∈ xs, (q y = true → g y = y) ∧ q (g y) = q y :=
      fun y hy => h y (by simp [hy])
    simp only [List.map_cons, List.filter_cons, hx.2]
    cases hqx : q x with
    | false => simpa using ih hrest
    | true =>
      have := hx.1 hqx
      simp [this, ih hrest]

theorem mem_of_nodup_ids {α : Type} (f : α → Nat) :
    ∀ xs : List α, (xs.map f).Nodup → ∀ x ∈ xs, ∀ y ∈ xs, f x = f y → x = y := by
  intro xs hn x hx y hy hxy
  exact List.inj_on_of_nodup_map hn hx hy hxy

theorem map_id_of {α : Type} (g : α → α) :
    ∀ xs : List α, (∀ x ∈ xs, g x = x) → xs.map g = xs := by
  intro xs
  induction xs with
  | nil => intro _; rfl
  | cons x xs ih =>
    intro h
    simp only [List.map_cons]
    rw [h x (by simp), ih (fun y hy => h y (by simp [hy]))]

/-! ### Characterisations of the row-update helpers -/

theorem updateLoan_split (ls : List Loan) (lid : Nat) (l2 l0 : Loan)
    (hn : (ls.map Loan.id).Nodup) (h0 : l0 ∈ ls) (hid : l0.id = lid) :
    ∃ L1 L2, ls = L1 ++ l0 :: L2 ∧
      (∀ x ∈ L1, x.id ≠ lid) ∧ (∀ x ∈ L2, x.id ≠ lid) ∧
      updateLoan ls lid l2 = L1 ++ l2 :: L2 := by
  obtain ⟨L1, L2, rfl⟩ := List.append_of_mem h0
  rw [List.map_append, List.map_cons] at hn
  have hm : (l0.id :: (L1.map Loan.id ++ L2.map Loan.id)).Nodup :=
    List.nodup_middle.mp hn
  have hnotin : l0.id ∉ L1.map Loan.id ++ L2.map Loan.id :=
    (List.nodup_cons.mp hm).1
  refine ⟨L1, L2, rfl, ?_, ?_, ?_⟩
  · intro x hx heq
    exact hnotin (List.mem_append.mpr (Or.inl
      (List.mem_map.mpr ⟨x, hx, by rw [heq, hid]⟩)))
  · intro x hx heq
    exact hnotin (List.mem_append.mpr (Or.inr
      (List.mem_map.mpr ⟨x, hx, by rw [heq, hid]⟩)))
  · unfold updateLoan
    rw [List.map_append, List.map_cons]
    have e1 : L1.map (fun x => if x.id == lid then l2 else x) = L1 := by
      apply map_id_of
      intro x hx
      have : x.id ≠ lid := by
        intro heq
        exact hnotin (List.mem_append.mpr (Or.inl
          (List.mem_map.mpr ⟨x, hx, by rw [heq, hid]⟩)))
      simp [this]
    have e2 : L2.map (fun x => if x.id == lid then l2 else x) = L2 := by
      apply map_id_of
      intro x hx
      have : x.id ≠ lid := by
        intro heq
        exact hnotin (List.mem_append.mpr (Or.inr
          (List.mem_map.mpr ⟨x, hx, by rw [heq, hid]⟩)))
      simp [this]
    rw [e1, e2]
    simp [hid]

/-! ### Facts about `Loan.calculate_fine` and the sweep guard -/

theorem sweepCond_iff (now : Int) (p : Loan) :
    sweepCond now p = true ↔ p.status = .active ∧ p.is_overdue now = true := by
  unfold sweepCond
  simp

theorem calculate_fine_pos (p : Loan) (now : Int)
    (h1 : p.status = .active) (h2 : p.is_overdue now = true) :
    p.calculate_fine now =
      (dateOf now - dateOf p.due_date,
       { p with fine_amount := dateOf now - dateOf p.due_date, status := .overdue }) := by
  unfold Loan.calculate_fine Loan.days_overdue
  simp [h1, h2]

/-! ### Behaviour of one sweep step -/

theorem upsertFine_loans (s : State) (uid lid : Nat) (amt : Int) (r : String)
    (now : Int) : (upsertFine s uid lid amt r now).loans = s.loans := by
  unfold upsertFine
  split <;> rfl

theorem upsertFine_books (s : State) (uid lid : Nat) (amt : Int) (r : String)
    (now : Int) : (upsertFine s uid lid amt r now).books = s.books := by
  unfold upsertFine
  split <;> rfl

theorem upsertFine_reservations (s : State) (uid lid : Nat) (amt : Int)
    (r : String) (now : Int) :
    (upsertFine s uid lid amt r now).reservations = s.reservations := by
  unfold upsertFine
  split <;> rfl

theorem sweepLoanStep_of_neg (now : Int) (uid : Nat) (s : State) (l : Loan)
    (h : sweepCond now l = false) : sweepLoanStep now uid s l = s := by
  unfold sweepLoanStep
  simp [h]

theorem sweepLoanStep_books (now : Int) (uid : Nat) (s : State) (l : Loan) :
    (sweepLoanStep now uid s l).books = s.books := by
  unfold sweepLoanStep
  split
  · dsimp only
    split
    · exact upsertFine_books ..
    · rfl
  · rfl

theorem sweepLoanStep_reservations (now : Int) (uid : Nat) (s : State)
    (l : Loan) : (sweepLoanStep now uid s l).reservations = s.reservations := by
  unfold sweepLoanStep
  split
  · dsimp only
    split
    · exact upsertFine_reservations ..
    · rfl
  · rfl

theorem sweepLoanStep_loans_pos (now : Int) (uid : Nat) (s : State) (l : Loan)
    (h : sweepCond now l = true) :
    (sweepLoanStep now uid s l).loans =
      updateLoan s.loans l.id (l.calculate_fine now).2 := by
  unfold sweepLoanStep
  rw [if_pos h]
  dsimp only
  split
  · rw [upsertFine_loans]
  · rfl

/-! ### Behaviour of the whole overdue sweep -/

theorem sweep_fold_books (now : Int) (uid : Nat) :
    ∀ (L : List Loan) (s : State),
      ((L.foldl (sweepLoanStep now uid) s).books) = s.books := by
  intro L
  induction L with
  | nil => intro s; rfl
  | cons p L ih =>
    intro s
    rw [List.foldl_cons, ih, sweepLoanStep_books]

theorem sweep_fold_reservations (now : Int) (uid : Nat) :
    ∀ (L : List Loan) (s : State),
      ((L.foldl (sweepLoanStep now uid) s).reservations) = s.reservations := by
  intro L
  induction L with
  | nil => intro s; rfl
  | cons p L ih =>
    intro s
    rw [List.foldl_cons, ih, sweepLoanStep_reservations]

theorem sweep_fold_id (now : Int) (uid : Nat) :
    ∀ (L : List Loan) (s : State), (∀ p ∈ L, sweepCond now p = false) →
      L.foldl (sweepLoanStep now uid) s = s := by
  intro L
  induction L with
  | nil => intro s _; rfl
  | cons p L ih =>
    intro s h
    rw [List.foldl_cons, sweepLoanStep_of_neg now uid s p (h p (by simp))]
    exact ih s (fun q hq => h q (by simp [hq]))

theorem sweep_fold_active_mem (now : Int) (uid : Nat) :
    ∀ (L : List Loan) (s : State) (l2 : Loan),
      l2 ∈ (L.foldl (sweepLoanStep now uid) s).loans → sweepCond now l2 = true →
      l2 ∈ s.loans ∧ ∀ p ∈ L, sweepCond now p = true → p.id ≠ l2.id := by
  intro L
  induction L with
  | nil =>
    intro s l2 hmem hc
    exact ⟨hmem, by simp⟩
  | cons p L ih =>
    intro s l2 hmem hc
    rw [List.foldl_cons] at hmem
    obtain ⟨hmem1, hrest⟩ := ih (sweepLoanStep now uid s p) l2 hmem hc
    by_cases hp : sweepCond now p = true
    · rw [sweepLoanStep_loans_pos now uid s p hp] at hmem1
      unfold updateLoan at hmem1
      obtain ⟨x, hx, hxe⟩ := List.mem_map.mp hmem1
      by_cases hxid : (x.id == p.id) = true
      · rw [if_pos hxid] at hxe
        obtain ⟨h1, h2⟩ := (sweepCond_iff now p).mp hp
        rw [calculate_fine_pos p now h1 h2] at hxe
        rw [← hxe] at hc
        obtain ⟨hst, _⟩ := (sweepCond_iff now _).mp hc
        simp at hst
      · rw [if_neg hxid] at hxe
        subst hxe
        refine ⟨hx, ?_⟩
        intro q hq hcq
        rcases List.mem_cons.mp hq with rfl | hq2
        · intro he
          exact hxid (by simp [he])
        · exact hrest q hq2 hcq
    · rw [sweepLoanStep_of_neg now uid s p (by simpa using hp)] at hmem1
      refine ⟨hmem1, ?_⟩
      intro q hq hcq
      rcases List.mem_cons.mp hq with rfl | hq2
      · exact absurd hcq hp
      · exact hrest q hq2 hcq

theorem sweep_fold_overdue_stable (now : Int) (uid lid : Nat) :
    ∀ (L : List Loan) (s : State),
      (∀ x ∈ s.loans, x.id = lid → x.status = .overdue) →
      ∀ x ∈ (L.foldl (sweepLoanStep now uid) s).loans, x.id = lid →
        x.status = .overdue := by
  intro L
  induction L with
  | nil => intro s hs; exact hs
  | cons p L ih =>
    intro s hs
    rw [List.foldl_cons]
    apply ih
    intro x hx hxid
    by_cases hp : sweepCond now p = true
    · rw [sweepLoanStep_loans_pos now uid s p hp] at hx
      unfold updateLoan at hx
      obtain ⟨y, hy, hye⟩ := List.mem_map.mp hx
      by_cases hyid : (y.id == p.id) = true
      · rw [if_pos hyid] at hye
        obtain ⟨h1, h2⟩ := (sweepCond_iff now p).mp hp
        rw [calculate_fine_pos p now h1 h2] at hye
        rw [← hye]
      · rw [if_neg hyid] at hye
        subst hye
        exact hs y hy hxid
    · rw [sweepLoanStep_of_neg now uid s p (by simpa using hp)] at hx
      exact hs x hx hxid

theorem sweepLoanStep_establishes_overdue (now : Int) (uid : Nat) (s : State)
    (l : Loan) (h : sweepCond now l = true) :
    ∀ x ∈ (sweepLoanStep now uid s l).loans, x.id = l.id →
      x.status = .overdue := by
  intro x hx hxid
  rw [sweepLoanStep_loans_pos now uid s l h] at hx
  unfold updateLoan at hx
  obtain ⟨y, hy, hye⟩ := List.mem_map.mp hx
  by_cases hyid : (y.id == l.id) = true
  · rw [if_pos hyid] at hye
    obtain ⟨h1, h2⟩ := (sweepCond_iff now l).mp h
    rw [calculate_fine_pos l now h1 h2] at hye
    rw [← hye]
  · rw [if_neg hyid] at hye
    subst hye
    exact absurd (by simp [hxid]) hyid

theorem sweepLoanStep_finesFor (now : Int) (uid lid : Nat) (s : State)
    (p : Loan) (h : sweepCond now p = true → p.id ≠ lid) :
    ((sweepLoanStep now uid s p).fines.filter
        (fun f => f.userId == uid && f.loanId == lid)) =
      s.fines.filter (fun f => f.userId == uid && f.loanId == lid) := by
  unfold sweepLoanStep
  split
  · rename_i hcond
    have hpid : p.id ≠ lid := h hcond
    dsimp only
    split
    · unfold upsertFine
      split
      · dsimp only
        apply filter_map_invariant
        intro f _
        constructor
        · intro hq
          have hfl : f.loanId = lid := by
            simp at hq
            exact hq.2
          have : (f.loanId == p.id) = false := by
            simp [hfl]
            intro he
            exact hpid he.symm
          simp [this]
        · by_cases hc : (f.userId == uid && f.loanId == p.id) = true
          · rw [if_pos hc]
          · rw [if_neg hc]
      · dsimp only
        rw [List.filter_append]
        have : ((p.id == lid : Bool)) = false := by
          simp [hpid]
        simp [this]
    · rfl
  · rfl

theorem sweep_fold_loansOut (now : Int) (uid bid : Nat) :
    ∀ (L : List Loan) (s : State),
      (L.map Loan.id).Nodup →
      (∀ p ∈ L, ∀ x ∈ s.loans, x.id = p.id → x = p) →
      (((L.foldl (sweepLoanStep now uid) s).loans.filter
          (fun l => l.bookId == bid &&
            (l.status == .active || l.status == .overdue))).length)
        = ((s.loans.filter (fun l => l.bookId == bid &&
            (l.status == .active || l.status == .overdue))).length) := by
  intro L
  induction L with
  | nil => intro s _ _; rfl
  | cons p L ih =>
    intro s hn hcoh
    rw [List.map_cons, List.nodup_cons] at hn
    obtain ⟨hpin, hnL⟩ := hn
    rw [List.foldl_cons]
    by_cases hp : sweepCond now p = true
    · have hloans := sweepLoanStep_loans_pos now uid s p hp
      obtain ⟨h1, h2⟩ := (sweepCond_iff now p).mp hp
      have hcoh2 : ∀ q ∈ L, ∀ x ∈ (sweepLoanStep now uid s p).loans,
          x.id = q.id → x = q := by
        intro q hq x hx hxid
        rw [hloans] at hx
        unfold updateLoan at hx
        obtain ⟨y, hy, hye⟩ := List.mem_map.mp hx
        by_cases hyid : (y.id == p.id) = true
        · exfalso
          rw [if_pos hyid] at hye
          rw [calculate_fine_pos p now h1 h2] at hye
          have hxp : x.id = p.id := by rw [← hye]
          exact hpin (List.mem_map.mpr ⟨q, hq, by rw [← hxid, hxp]⟩)
        · rw [if_neg hyid] at hye
          subst hye
          exact hcoh q (by simp [hq]) y hy hxid
      rw [ih _ hnL hcoh2, hloans]
      unfold updateLoan
      apply length_filter_map_congr
      intro x hx
      by_cases hxid : (x.id == p.id) = true
      · rw [if_pos hxid]
        have hxp : x = p := hcoh p (by simp) x hx (by simpa using hxid)
        rw [calculate_fine_pos p now h1 h2, hxp]
        simp [h1]
      · rw [if_neg hxid]
    · rw [sweepLoanStep_of_neg now uid s p (by simpa using hp)]
      exact ih _ hnL (fun q hq x hx => hcoh q (by simp [hq]) x hx)

theorem my_loans_books (s : State) (now : Int) (uid : Nat) :
    (my_loans s now uid).books = s.books :=
  sweep_fold_books now uid _ s

theorem my_loans_reservations (s : State) (now : Int) (uid : Nat) :
    (my_loans s now uid).reservations = s.reservations :=
  sweep_fold_reservations now uid _ s

theorem my_loans_loansOut (s : State) (now : Int) (uid bid : Nat)
    (hn : loanIdsNodup s) :
    loansOut (my_loans s now uid) bid = loansOut s bid := by
  unfold my_loans loansOut
  apply sweep_fold_loansOut
  · exact ((List.filter_sublist _).map Loan.id).nodup hn
  · intro p hp x hx hxid
    exact mem_of_nodup_ids Loan.id s.loans hn x hx p (List.mem_of_mem_filter hp) hxid

theorem my_loans_idem (s : State) (now : Int) (uid : Nat) :
    my_loans (my_loans s now uid) now uid = my_loans s now uid := by
  have key : ∀ p ∈ (my_loans s now uid).loans.filter (fun l => l.userId == uid),
      sweepCond now p = false := by
    intro p hp
    cases hcp : sweepCond now p with
    | false => rfl
    | true =>
      exfalso
      have hpmem := (List.mem_filter.mp hp).1
      have hpuid : (p.userId == uid) = true := (List.mem_filter.mp hp).2
      obtain ⟨hmem, hrest⟩ := sweep_fold_active_mem now uid
        (s.loans.filter (fun l => l.userId == uid)) s p hpmem hcp
      have hpL : p ∈ s.loans.filter (fun l => l.userId == uid) :=
        List.mem_filter.mpr ⟨hmem, hpuid⟩
      exact hrest p hpL hcp rfl
  calc my_loans (my_loans s now uid) now uid
      = ((my_loans s now uid).loans.filter (fun l => l.userId == uid)).foldl
          (sweepLoanStep now uid) (my_loans s now uid) := rfl
    _ = my_loans s now uid := sweep_fold_id now uid _ _ key

theorem my_loans_overdue_at (s : State) (now : Int) (uid : Nat) (l : Loan)
    (hl : l ∈ s.loans) (hu : l.userId = uid) (hc : sweepCond now l = true) :
    ∀ x ∈ (my_loans s now uid).loans, x.id = l.id → x.status = .overdue := by
  have hlL : l ∈ s.loans.filter (fun p => p.userId == uid) :=
    List.mem_filter.mpr ⟨hl, by simp [hu]⟩
  obtain ⟨L1, L2, hsplit⟩ := List.append_of_mem hlL
  show ∀ x ∈ ((s.loans.filter (fun p => p.userId == uid)).foldl
      (sweepLoanStep now uid) s).loans, x.id = l.id → x.status = .overdue
  rw [hsplit, List.foldl_append, List.foldl_cons]
  exact sweep_fold_overdue_stable now uid l.id L2 _
    (sweepLoanStep_establishes_overdue now uid _ l hc)

theorem sweep_fold_finesFor (now : Int) (uid lid : Nat) :
    ∀ (L : List Loan) (s : State), (∀ p ∈ L, sweepCond now p = true → p.id ≠ lid) →
      ((L.foldl (sweepLoanStep now uid) s).fines.filter
          (fun f => f.userId == uid && f.loanId == lid)) =
        s.fines.filter (fun f => f.userId == uid && f.loanId == lid) := by
  intro L
  induction L with
  | nil => intro s _; rfl
  | cons p L ih =>
    intro s h
    rw [List.foldl_cons, ih _ (fun q hq => h q (by simp [hq])),
      sweepLoanStep_finesFor now uid lid s p (h p (by simp))]

/-! ### The earliest pending reservation -/

theorem foldl_min_spec :
    ∀ (L : List Reservation) (acc : Option Reservation) (r : Reservation),
      L.foldl (fun acc r =>
        match acc with
        | none => some r
        | some a => if r.reservation_date < a.reservation_date then some r
                    else acc) acc = some r →
      (acc = some r ∨ r ∈ L) ∧
        (∀ a, acc = some a → r.reservation_date ≤ a.reservation_date) ∧
        ∀ q ∈ L, r.reservation_date ≤ q.reservation_date := by
  intro L
  induction L with
  | nil =>
    intro acc r h
    simp only [List.foldl_nil] at h
    refine ⟨Or.inl h, ?_, by simp⟩
    intro a ha
    rw [h] at ha
    cases ha
    exact le_refl _
  | cons p L ih =>
    intro acc r h
    rw [List.foldl_cons] at h
    obtain ⟨h1, h2, h3⟩ := ih _ r h
    cases acc with
    | none =>
      simp only at h1 h2
      have hrp : r.reservation_date ≤ p.reservation_date := h2 p rfl
      refine ⟨?_, ?_, ?_⟩
      · rcases h1 with he | hm
        · cases he; exact Or.inr (by simp)
        · exact Or.inr (by simp [hm])
      · intro a ha; cases ha
      · intro q hq
        rcases List.mem_cons.mp hq with rfl | hq2
        · exact hrp
        · exact h3 q hq2
    | some a =>
      dsimp only at h1 h2
      by_cases hlt : p.reservation_date < a.reservation_date
      · rw [if_pos hlt] at h1 h2
        have hrp : r.reservation_date ≤ p.reservation_date := h2 p rfl
        refine ⟨?_, ?_, ?_⟩
        · rcases h1 with he | hm
          · cases he; exact Or.inr (by simp)
          · exact Or.inr (by simp [hm])
        · intro b hb
          cases hb
          exact le_trans hrp (le_of_lt hlt)
        · intro q hq
          rcases List.mem_cons.mp hq with rfl | hq2
          · exact hrp
          · exact h3 q hq2
      · rw [if_neg hlt] at h1 h2
        have hra : r.reservation_date ≤ a.reservation_date := h2 a rfl
        refine ⟨?_, ?_, ?_⟩
        · rcases h1 with he | hm
          · exact Or.inl he
          · exact Or.inr (by simp [hm])
        · intro b hb
          cases hb
          exact hra
        · intro q hq
          rcases List.mem_cons.mp hq with rfl | hq2
          · exact le_trans hra (le_of_not_lt hlt)
          · exact h3 q hq2

theorem nextPendingReservation_spec (rs : List Reservation) (bid : Nat)
    (r : Reservation) (h : nextPendingReservation rs bid = some r) :
    r ∈ rs ∧ r.bookId = bid ∧ r.status = .pending ∧
      ∀ q ∈ rs, q.bookId = bid → q.status = .pending →
        r.reservation_date ≤ q.reservation_date := by
  unfold nextPendingReservation at h
  obtain ⟨h1, _, h3⟩ := foldl_min_spec _ none r h
  rcases h1 with he | hm
  · cases he
  · have hmem := List.mem_filter.mp hm
    have hp := hmem.2
    simp only [Bool.and_eq_true, beq_iff_eq] at hp
    refine ⟨hmem.1, hp.1, hp.2, ?_⟩
    intro q hq hqb hqs
    exact h3 q (List.mem_filter.mpr ⟨hq, by simp [hqb, hqs]⟩)

/-! ### Shapes of the operations -/

theorem borrow_book_ok_shape (s : State) (now : Int) (uid bid : Nat) (s' : State)
    (h : borrow_book s now uid bid = .ok s') :
    ∃ book, s.books.find? (fun b => b.id == bid) = some book ∧
      ¬ book.available_copies ≤ 0 ∧
      (s.loans.any (fun l =>
        l.bookId == bid && l.userId == uid && l.status == .active)) = false ∧
      (s.fines.any (fun f => f.userId == uid && f.status == .pending)) = false ∧
      ¬ 5 ≤ activeLoanCount s uid ∧
      s'.books = updateBook s.books bid
        (fun _ => { book with available_copies := book.available_copies - 1 }) ∧
      s'.fines = s.fines ∧
      ∃ nl : Loan, s'.loans = s.loans ++ [nl] ∧ nl.bookId = bid ∧
        nl.status = .active := by
  unfold borrow_book at h
  split at h
  · simp at h
  · rename_i book hfind
    split at h
    · simp at h
    · rename_i h1
      split at h
      · simp at h
      · rename_i h2
        split at h
        · simp at h
        · rename_i h3
          split at h
          · simp at h
          · rename_i h4
            dsimp only at h
            rw [Except.ok.injEq] at h
            subst h
            refine ⟨book, hfind, h1, by simpa using h2, by simpa using h3, h4,
              ?_, ?_, ?_⟩
            · (repeat' split) <;> rfl
            · (repeat' split) <;> rfl
            · refine ⟨⟨s.nextLoanId, bid, uid, now, now + 14 * minutesPerDay, none, .active, 0, 0⟩, ?_, rfl, rfl⟩
              (repeat' split) <;> rfl

theorem return_book_ok_shape (s : State) (now : Int) (uid lid : Nat) (s' : State)
    (h : return_book s now uid lid = .ok s') :
    ∃ loan, s.loans.find? (fun l =>
        l.id == lid && l.userId == uid && l.status == .active) = some loan ∧
      s'.books = updateBook s.books loan.bookId
        (fun b => { b with available_copies := b.available_copies + 1 }) ∧
      s'.loans = updateLoan s.loans lid
        { loan with return_date := some now, status := .returned } ∧
      s'.fines = s.fines := by
  unfold return_book at h
  split at h
  · simp at h
  · rename_i loan hfind
    have hov : Loan.is_overdue
        { loan with return_date := some now, status := .returned } now = false := by
      unfold Loan.is_overdue
      simp
    dsimp only at h
    rw [hov] at h
    simp only [Bool.false_eq_true, if_false] at h
    rw [Except.ok.injEq] at h
    subst h
    refine ⟨loan, hfind, ?_, ?_, ?_⟩
    · (repeat' split) <;> rfl
    · (repeat' split) <;> rfl
    · (repeat' split) <;> rfl

theorem reserve_book_ok_shape (s : State) (now : Int) (uid bid : Nat)
    (s' : State) (h : reserve_book s now uid bid = .ok s') :
    s'.books = s.books ∧ s'.loans = s.loans := by
  unfold reserve_book at h
  split at h
  · simp at h
  · split at h
    · simp at h
    · split at h
      · simp at h
      · split at h
        · simp at h
        · split at h
          · simp at h
          · dsimp only at h
            rw [Except.ok.injEq] at h
            subst h
            exact ⟨rfl, rfl⟩

theorem cancel_reservation_ok_shape (s : State) (uid rid : Nat) (s' : State)
    (h : cancel_reservation s uid rid = .ok s') :
    s'.books = s.books ∧ s'.loans = s.loans := by
  unfold cancel_reservation at h
  split at h
  · simp at h
  · rw [Except.ok.injEq] at h
    subst h
    exact ⟨rfl, rfl⟩

theorem renew_snd_books (s : State) (l : Loan) (now : Int) :
    ((Loan.renew s l now).2).books = s.books := by
  unfold Loan.renew
  dsimp only
  split
  · rfl
  · rfl

theorem renew_snd_loans (s : State) (l : Loan) (now : Int) :
    ((Loan.renew s l now).2).loans = s.loans ∨
      ((Loan.renew s l now).2).loans = updateLoan s.loans l.id
        { l with due_date := now + 14 * minutesPerDay,
                 renewal_count := l.renewal_count + 1 } := by
  unfold Loan.renew
  dsimp only
  split
  · exact Or.inr rfl
  · exact Or.inl rfl

theorem my_reservations_books (s : State) (now : Int) (uid : Nat) :
    (my_reservations s now uid).books = s.books := by
  unfold my_reservations
  generalize s.reservations.filter (fun r => r.userId == uid) = L
  induction L generalizing s with
  | nil => rfl
  | cons p L ih =>
    rw [List.foldl_cons]
    rw [ih]
    split
    · rfl
    · rfl

theorem my_reservations_loans (s : State) (now : Int) (uid : Nat) :
    (my_reservations s now uid).loans = s.loans := by
  unfold my_reservations
  generalize s.reservations.filter (fun r => r.userId == uid) = L
  induction L generalizing s with
  | nil => rfl
  | cons p L ih =>
    rw [List.foldl_cons]
    rw [ih]
    split
    · rfl
    · rfl

/-! ### Preservation of the copies invariant -/

theorem copiesInvariant_of_eq (s1 s2 : State) (hb : s2.books = s1.books)
    (hl : s2.loans = s1.loans) (h : copiesInvariant s1) : copiesInvariant s2 := by
  unfold copiesInvariant loansOut at h ⊢
  rw [hb, hl]
  exact h

theorem copiesInvariant_my_loans (s : State) (now : Int) (uid : Nat)
    (hn : loanIdsNodup s) (hinv : copiesInvariant s) :
    copiesInvariant (my_loans s now uid) := by
  unfold copiesInvariant
  intro b hb
  rw [my_loans_books] at hb
  rw [my_loans_loansOut s now uid b.id hn]
  exact hinv b hb

theorem copiesInvariant_borrow (s : State) (now : Int) (uid bid : Nat)
    (s2 : State) (hres : borrow_book s now uid bid = .ok s2)
    (hinv : copiesInvariant s) : copiesInvariant s2 := by
  obtain ⟨book, hfind, h1, h2, h3, h4, hbooks, hfines, nl, hloans, hnlb, hnls⟩ :=
    borrow_book_ok_shape s now uid bid s2 hres
  have hbookid : book.id = bid := by simpa using List.find?_some hfind
  have hbookmem : book ∈ s.books := List.mem_of_find?_eq_some hfind
  have hcount : ∀ x : Nat, (loansOut s2 x : Int) =
      (loansOut s x : Int) + (if bid = x then 1 else 0) := by
    intro x
    unfold loansOut
    rw [hloans, List.filter_append]
    by_cases hx : bid = x
    · subst hx
      have hnl : (nl.bookId == bid &&
          (nl.status == LoanStatus.active || nl.status == LoanStatus.overdue))
            = true := by
        simp [hnlb, hnls]
      simp [List.filter_cons, hnl]
    · have hnl : (nl.bookId == x &&
          (nl.status == LoanStatus.active || nl.status == LoanStatus.overdue))
            = false := by
        simp [hnlb, hnls]
        exact hx
      simp [List.filter_cons, hnl, hx]
  unfold copiesInvariant
  intro b hb
  rw [hbooks] at hb
  unfold updateBook at hb
  obtain ⟨b0, hb0, hbe⟩ := List.mem_map.mp hb
  rw [hcount]
  by_cases hbid : (b0.id == bid) = true
  · rw [if_pos hbid] at hbe
    have hbinv := hinv book hbookmem
    rw [hbookid] at hbinv
    rw [← hbe]
    simp only
    rw [hbookid]
    rw [if_pos rfl]
    omega
  · rw [if_neg hbid] at hbe
    have hbinv := hinv b0 hb0
    rw [← hbe]
    have : ¬ bid = b0.id := by
      intro he
      exact hbid (by simp [he])
    rw [if_neg this]
    omega

theorem copiesInvariant_return (s : State) (now : Int) (uid lid : Nat)
    (s2 : State) (hres : return_book s now uid lid = .ok s2)
    (hn : loanIdsNodup s) (hinv : copiesInvariant s) : copiesInvariant s2 := by
  obtain ⟨loan, hfind, hbooks, hloans, hfines⟩ :=
    return_book_ok_shape s now uid lid s2 hres
  have hpred := List.find?_some hfind
  simp only [Bool.and_eq_true, beq_iff_eq] at hpred
  obtain ⟨⟨hlid, _⟩, hact⟩ := hpred
  have hmem : loan ∈ s.loans := List.mem_of_find?_eq_some hfind
  obtain ⟨L1, L2, hsplit, hL1, hL2, hupd⟩ :=
    updateLoan_split s.loans lid
      { loan with return_date := some now, status := .returned } loan hn hmem hlid
  have hcount : ∀ x : Nat, (loansOut s x : Int) =
      (loansOut s2 x : Int) + (if loan.bookId = x then 1 else 0) := by
    intro x
    unfold loansOut
    rw [hloans, hupd]
    conv_lhs => rw [hsplit]
    rw [List.filter_append, List.filter_append]
    by_cases hx : loan.bookId = x
    · subst hx
      have hold : (loan.bookId == loan.bookId &&
          (loan.status == LoanStatus.active || loan.status == LoanStatus.overdue))
            = true := by
        simp [hact]
      have hnew : (loan.bookId == loan.bookId &&
          ((LoanStatus.returned : LoanStatus) == LoanStatus.active ||
           (LoanStatus.returned : LoanStatus) == LoanStatus.overdue)) = false := by
        simp
      rw [List.filter_cons, List.filter_cons, if_pos hold,
        if_neg (by simp [hnew])]
      simp only [List.length_append, List.length_cons]
      push_cast
      omega
    · have hold : (loan.bookId == x &&
          (loan.status == LoanStatus.active || loan.status == LoanStatus.overdue))
            = false := by
        simp
        intro he
        exact absurd he hx
      have hnew : (loan.bookId == x &&
          ((LoanStatus.returned : LoanStatus) == LoanStatus.active ||
           (LoanStatus.returned : LoanStatus) == LoanStatus.overdue)) = false := by
        simp
      rw [List.filter_cons, List.filter_cons, if_neg (by simp [hold]),
        if_neg (by simp [hnew]), if_neg hx]
      simp
  unfold copiesInvariant
  intro b hb
  rw [hbooks] at hb
  unfold updateBook at hb
  obtain ⟨b0, hb0, hbe⟩ := List.mem_map.mp hb
  have hx := hcount
  by_cases hbid : (b0.id == loan.bookId) = true
  · rw [if_pos hbid] at hbe
    have hbinv := hinv b0 hb0
    rw [← hbe]
    simp only
    have hb0id : loan.bookId = b0.id := by
      have := (beq_iff_eq).mp hbid
      omega
    have := hx b0.id
    rw [if_pos hb0id] at this
    omega
  · rw [if_neg hbid] at hbe
    have hbinv := hinv b0 hb0
    rw [← hbe]
    have hne : ¬ loan.bookId = b0.id := by
      intro he
      exact hbid (by simp [he])
    have := hx b0.id
    rw [if_neg hne] at this
    omega

theorem copiesInvariant_renew (s : State) (now : Int) (lid : Nat)
    (hn : loanIdsNodup s) (hinv : copiesInvariant s) :
    copiesInvariant (applyOp s (Op.renew now lid)) := by
  show copiesInvariant (match s.loans.find? (fun l => l.id == lid) with
    | some l => (Loan.renew s l now).2
    | none => s)
  cases hfind : s.loans.find? (fun l => l.id == lid) with
  | none => exact hinv
  | some l =>
    have hlid : l.id = lid := by simpa using List.find?_some hfind
    have hmem : l ∈ s.loans := List.mem_of_find?_eq_some hfind
    rcases renew_snd_loans s l now with hl | hl
    · exact copiesInvariant_of_eq s _ (renew_snd_books s l now) hl hinv
    · unfold copiesInvariant
      intro b hb
      rw [renew_snd_books s l now] at hb
      have hcount : loansOut (Loan.renew s l now).2 b.id = loansOut s b.id := by
        unfold loansOut
        rw [hl]
        unfold updateLoan
        apply length_filter_map_congr
        intro x hx
        by_cases hxid : (x.id == l.id) = true
        · rw [if_pos hxid]
          have hxeq : x = l :=
            mem_of_nodup_ids Loan.id s.loans hn x hx l hmem (by simpa using hxid)
          rw [hxeq]
        · rw [if_neg hxid]
      rw [hcount]
      exact hinv b hb

/-! ### Concrete fixture states used in counterexamples and witnesses -/

def c1State : State :=
  ⟨[⟨0, "B", 1, 0⟩], [⟨7, 5⟩],
   [⟨1, 0, 7, 0, 14 * minutesPerDay, none, .active, 0, 0⟩], [], [], 2, 1, 1⟩

def c2Loan : Loan := ⟨1, 0, 7, 0, 14 * minutesPerDay, none, .active, 0, 0⟩

def c2State : State := ⟨[⟨0, "B", 1, 0⟩], [⟨7, 5⟩], [c2Loan], [], [], 2, 1, 1⟩

def c3State : State :=
  ⟨[⟨0, "B", 1, 0⟩], [⟨7, 5⟩],
   [⟨1, 0, 7, 0, 14 * minutesPerDay, none, .active, 0, 0⟩], [], [], 2, 1, 1⟩

def c4State : State :=
  ⟨[⟨5, "C", 1, 1⟩, ⟨0, "B", 1, 0⟩], [⟨7, 1⟩],
   [⟨1, 0, 7, 0, 14 * minutesPerDay, none, .active, 0, 0⟩], [], [], 2, 1, 1⟩

def c4wState : State :=
  ⟨[⟨9, "W", 1, 1⟩], [⟨7, 5⟩],
   [⟨1, 1, 7, 0, 14 * minutesPerDay, none, .active, 0, 0⟩,
    ⟨2, 2, 7, 0, 14 * minutesPerDay, none, .active, 0, 0⟩,
    ⟨3, 3, 7, 0, 14 * minutesPerDay, none, .active, 0, 0⟩,
    ⟨4, 4, 7, 0, 14 * minutesPerDay, none, .active, 0, 0⟩,
    ⟨5, 5, 7, 0, 14 * minutesPerDay, none, .active, 0, 0⟩], [], [], 6, 1, 1⟩

def c5State : State :=
  ⟨[⟨0, "B", 3, 2⟩], [], [], [⟨4, 0, 9, 5, 100, .pending, false⟩], [], 1, 5, 1⟩

def c5wState : State :=
  ⟨[⟨0, "B", 1, 0⟩], [⟨7, 5⟩],
   [⟨1, 0, 7, 0, 14 * minutesPerDay, none, .active, 0, 0⟩],
   [⟨4, 0, 9, 5, 100, .pending, false⟩, ⟨6, 0, 11, 9, 200, .pending, false⟩],
   [], 2, 7, 1⟩

def c7State : State :=
  ⟨[⟨0, "B", 1, 0⟩], [⟨7, 5⟩], [], [⟨4, 0, 9, 5, 100, .pending, false⟩], [],
   2, 5, 1⟩

def c7Loan : Loan := ⟨1, 0, 7, 0, 0, none, .active, 3, 0⟩

def c8State : State :=
  ⟨[⟨0, "B", 1, 0⟩], [], [], [], [⟨1, 7, 1, 2, "x", 0, .pending⟩], 2, 1, 2⟩

def c8wState : State :=
  ⟨[⟨0, "B", 1, 1⟩], [], [], [], [⟨1, 7, 1, 2, "x", 0, .pending⟩], 2, 1, 2⟩

def c10State : State :=
  ⟨[⟨0, "B", 1, 0⟩], [], [], [⟨4, 0, 9, 5, 100, .cancelled, false⟩], [],
   1, 5, 1⟩

/-! ### The claims -/

/-- C7: renewing a loan whose `renewal_count` is 3 always fails with the
`MAX_RENEWALS` message ("Maximum renewals reached"), regardless of any other
condition, and leaves the store — hence the loan's `due_date` and
`renewal_count` — unchanged. -/
theorem renew_at_max_renewals (s : State) (l : Loan) (now : Int)
    (h : l.renewal_count = 3) :
    Loan.renew s l now = ((false, "Maximum renewals reached"), s) := by
  unfold Loan.renew Loan.can_be_renewed
  rw [h]
  simp

/-- Witness for C7: a loan with `renewal_count = 3` that is also overdue and
whose book has a pending reservation is refused with `MAX_RENEWALS`. -/
theorem renew_at_max_renewals_witness :
    c7Loan.renewal_count = 3 ∧
      c7Loan.is_overdue (10 * minutesPerDay) = true ∧
      (c7State.reservations.any (fun r =>
        r.bookId == c7Loan.bookId && r.status == .pending)) = true ∧
      Loan.renew c7State c7Loan (10 * minutesPerDay) =
        ((false, "Maximum renewals reached"), c7State) :=
  ⟨by decide, by decide, by decide,
    renew_at_max_renewals c7State c7Loan (10 * minutesPerDay) (by decide)⟩

/-- C2 (code bug): returning the loan of `c2State` six whole calendar days
after its due date succeeds and sets `return_date` and status `returned`, but
creates no `Fine` row and leaves `fine_amount` at 0 — because `return_book`
assigns `status = 'returned'` before calling `is_overdue()`, which answers
`false` for returned loans.  The specification requires a Fine of 6.00. -/
theorem return_overdue_creates_no_fine :
    c2Loan.due_date < 20 * minutesPerDay ∧
    dateOf (20 * minutesPerDay) - dateOf c2Loan.due_date = 6 ∧
    (return_book c2State (20 * minutesPerDay) 7 1).isOk = true ∧
    (applyOp c2State (Op.ret (20 * minutesPerDay) 7 1)).fines = [] ∧
    (∀ l ∈ (applyOp c2State (Op.ret (20 * minutesPerDay) 7 1)).loans,
      l.status = .returned ∧ l.fine_amount = 0 ∧
        l.return_date = some (20 * minutesPerDay)) := by
  refine ⟨by decide, by decide, by decide, by decide, by decide⟩

/-- C6: the overdue sweep is idempotent — running `my_loans` twice at the
same instant for the same borrower produces exactly the same store as
running it once, so the recorded Fine amounts are identical and no second
`Fine` row for a `(borrower, loan)` pair can appear. -/
theorem overdue_sweep_idempotent (s : State) (now : Int) (uid : Nat) :
    my_loans (my_loans s now uid) now uid = my_loans s now uid :=
  my_loans_idem s now uid

/-- C9: after the overdue sweep has flipped an active overdue loan to status
`overdue`, `return_book` — which looks the loan up with status `active` —
answers `NOT_FOUND` for it at any later time, so the return path can never
increment the book's `available_copies` for such a loan. -/
theorem overdue_swept_loan_cannot_be_returned (s : State) (t1 t2 : Int)
    (uid : Nat) (l : Loan) (hl : l ∈ s.loans) (hu : l.userId = uid)
    (hact : l.status = .active) (hov : l.due_date < t1) :
    return_book (my_loans s t1 uid) t2 uid l.id = .error .notFound := by
  have hcond : sweepCond t1 l = true := by
    rw [sweepCond_iff]
    exact ⟨hact, by simp [Loan.is_overdue, hact, hov]⟩
  have hover := my_loans_overdue_at s t1 uid l hl hu hcond
  have hnone : (my_loans s t1 uid).loans.find? (fun x =>
      x.id == l.id && x.userId == uid && x.status == .active) = none := by
    rw [List.find?_eq_none]
    intro x hx
    by_cases hid : (x.id == l.id) = true
    · have := hover x hx (by simpa using hid)
      simp [this]
    · simp [hid]
  unfold return_book
  rw [hnone]

/-- Witness for C9: in `c1State`, loan 1 is active and two days overdue at
day 16; after the sweep the return attempt at day 17 is refused. -/
theorem overdue_swept_loan_cannot_be_returned_witness :
    return_book (my_loans c1State (16 * minutesPerDay) 7)
        (17 * minutesPerDay) 7 1 = .error .notFound :=
  overdue_swept_loan_cannot_be_returned c1State (16 * minutesPerDay)
    (17 * minutesPerDay) 7 ⟨1, 0, 7, 0, 14 * minutesPerDay, none, .active, 0, 0⟩
    (by decide) (by decide) (by decide) (by decide)

/-- C10: the `unique_together = ['book', 'user']` constraint covers terminal
reservations too: once a (book, user) pair has a reservation row in a
terminal state (`cancelled`, `expired` or `fulfilled`), a fresh `reserve()`
call passes the view's non-terminal duplicate check but the row insertion
violates the uniqueness constraint, so no new pending reservation appears. -/
theorem reserve_after_terminal_reservation_integrity_error
    (s : State) (now : Int) (uid bid : Nat) (book : Book) (r0 : Reservation)
    (hfind : s.books.find? (fun b => b.id == bid) = some book)
    (havail : ¬ book.available_copies > 0)
    (hr0 : r0 ∈ s.reservations) (hb : r0.bookId = bid) (hu : r0.userId = uid)
    (hterm : r0.status = .cancelled ∨ r0.status = .expired ∨
      r0.status = .fulfilled)
    (huniq : ∀ r ∈ s.reservations, r.bookId = bid → r.userId = uid → r = r0)
    (hloan : (s.loans.any (fun l =>
      l.bookId == bid && l.userId == uid && l.status == .active)) = false) :
    reserve_book s now uid bid = .error .integrityError := by
  have hdup : (s.reservations.any (fun r =>
      r.bookId == bid && r.userId == uid &&
        (r.status == ReservationStatus.pending ||
         r.status == ReservationStatus.available))) = false := by
    rw [List.any_eq_false]
    intro r hr
    by_cases hbu : r.bookId = bid ∧ r.userId = uid
    · have hre := huniq r hr hbu.1 hbu.2
      subst hre
      rcases hterm with ht | ht | ht <;> simp [ht]
    · rw [Classical.not_and_iff_or_not_not] at hbu
      rcases hbu with hh | hh <;> simp [hh]
  have hins : (s.reservations.any (fun r =>
      r.bookId == bid && r.userId == uid)) = true :=
    List.any_eq_true.mpr ⟨r0, hr0, by simp [hb, hu]⟩
  unfold reserve_book
  rw [hfind]
  try dsimp only
  rw [if_neg havail, if_neg (by simp [hdup]), if_neg (by simp [hloan]),
    if_pos (by simp [hins])]

/-- Witness for C10: user 9 once cancelled a reservation for book 0 (out of
copies); reserving it again hits the database uniqueness constraint. -/
theorem reserve_after_terminal_reservation_integrity_error_witness :
    reserve_book c10State 7 9 0 = .error .integrityError :=
  reserve_after_terminal_reservation_integrity_error c10State 7 9 0
    ⟨0, "B", 1, 0⟩ ⟨4, 0, 9, 5, 100, .cancelled, false⟩
    (by decide) (by decide) (by decide) (by decide) (by decide)
    (Or.inl (by decide)) (by decide) (by decide)

/-- C4 counterexample: borrower 7 has `loan_limit = 1` and already holds one
active loan, yet `borrow_book` for a second book succeeds — the view never
consults the profile's `loan_limit`, so the claim that such a borrower is
refused with `LOAN_LIMIT_REACHED` is false. -/
theorem loan_limit_below_five_not_enforced :
    loanLimitOf c4State 7 = 1 ∧ activeLoanCount c4State 7 = 1 ∧
      (borrow_book c4State 0 7 5).isOk = true := by
  refine ⟨by decide, by decide, by decide⟩

/-- C4 (amended): when the availability, already-borrowed and fines checks
pass, `borrow_book` fails with `LOAN_LIMIT_REACHED` exactly when the
borrower's active-loan count is at least the hard cap of 5; the borrower's
own `loan_limit` (read only by the unused `Book.can_be_borrowed_by` helper)
plays no part in the transition. -/
theorem borrow_limit_is_hard_cap_five (s : State) (now : Int) (uid bid : Nat)
    (book : Book)
    (hfind : s.books.find? (fun b => b.id == bid) = some book)
    (h1 : ¬ book.available_copies ≤ 0)
    (h2 : (s.loans.any (fun l =>
      l.bookId == bid && l.userId == uid && l.status == .active)) = false)
    (h3 : (s.fines.any (fun f => f.userId == uid && f.status == .pending))
      = false) :
    (borrow_book s now uid bid = .error .loanLimitReached ↔
      5 ≤ activeLoanCount s uid) := by
  unfold borrow_book
  rw [hfind]
  try dsimp only
  rw [if_neg h1, if_neg (by simp [h2]), if_neg (by simp [h3])]
  by_cases h4 : 5 ≤ activeLoanCount s uid
  · rw [if_pos h4]
    simp [h4]
  · rw [if_neg h4]
    try dsimp only
    simp [h4]

/-- Witness for the amended C4: with five active loans the sixth borrow is
refused with `LOAN_LIMIT_REACHED`; the iff is supplied by the theorem. -/
theorem borrow_limit_is_hard_cap_five_witness :
    (borrow_book c4wState 0 7 9 = .error .loanLimitReached ↔
      5 ≤ activeLoanCount c4wState 7) ∧
      borrow_book c4wState 0 7 9 = .error .loanLimitReached :=
  ⟨borrow_limit_is_hard_cap_five c4wState 0 7 9 ⟨9, "W", 1, 1⟩
      (by decide) (by decide) (by decide) (by decide),
    (borrow_limit_is_hard_cap_five c4wState 0 7 9 ⟨9, "W", 1, 1⟩
      (by decide) (by decide) (by decide) (by decide)).mpr (by decide)⟩

/-- C8 counterexample: a borrower with a pending fine who requests an
unavailable book is refused with `UNAVAILABLE`, not `FINES_OUTSTANDING` —
the availability check runs first. -/
theorem fined_borrower_gets_unavailable_first :
    (c8State.fines.any (fun f => f.userId == 7 && f.status == .pending))
        = true ∧
      borrow_book c8State 0 7 0 = .error .unavailable ∧
      ¬ borrow_book c8State 0 7 0 = .error .finesOutstanding := by
  refine ⟨by decide, by decide, by decide⟩

/-- C8 (amended): a borrower with a pending fine can never complete a
borrow: every `borrow_book` call fails (leaving the store untouched, since
the view redirects before any write), and when the earlier checks pass —
the book is available and not already held by the borrower — the reported
error is exactly `FINES_OUTSTANDING`. -/
theorem fines_block_borrow (s : State) (now : Int) (uid bid : Nat)
    (hf : (s.fines.any (fun f => f.userId == uid && f.status == .pending))
      = true) :
    (∀ s2, borrow_book s now uid bid ≠ .ok s2) ∧
      (∀ book, s.books.find? (fun b => b.id == bid) = some book →
        ¬ book.available_copies ≤ 0 →
        (s.loans.any (fun l =>
          l.bookId == bid && l.userId == uid && l.status == .active)) = false →
        borrow_book s now uid bid = .error .finesOutstanding) := by
  constructor
  · intro s2 h
    obtain ⟨book, hfind, hA, hB, hC, hD, hE, hF, hG⟩ :=
      borrow_book_ok_shape s now uid bid s2 h
    rw [hC] at hf
    cases hf
  · intro book hfind h1 h2
    unfold borrow_book
    rw [hfind]
    try dsimp only
    rw [if_neg h1, if_neg (by simp [h2]), if_pos (by simp [hf])]

/-- Witness for the amended C8: with a copy on the shelf the fined borrower
is refused with `FINES_OUTSTANDING` and no success state exists. -/
theorem fines_block_borrow_witness :
    (∀ s2, borrow_book c8wState 0 7 0 ≠ .ok s2) ∧
      borrow_book c8wState 0 7 0 = .error .finesOutstanding :=
  ⟨(fines_block_borrow c8wState 0 7 0 (by decide)).1,
    (fines_block_borrow c8wState 0 7 0 (by decide)).2 ⟨0, "B", 1, 1⟩
      (by decide) (by decide) (by decide)⟩

/-- Return path of promotion: a successful return promotes the earliest
pending reservation of the book and resets its expiry to now + 7 days. -/
theorem return_path_promotion (s : State) (now : Int) (uid lid : Nat)
    (loan : Loan) (nr : Reservation)
    (hfind : s.loans.find? (fun l =>
      l.id == lid && l.userId == uid && l.status == .active) = some loan)
    (hnext : nextPendingReservation s.reservations loan.bookId = some nr) :
    ∃ s', return_book s now uid lid = .ok s' ∧
      nr ∈ s.reservations ∧ nr.bookId = loan.bookId ∧ nr.status = .pending ∧
      (∀ q ∈ s.reservations, q.bookId = loan.bookId → q.status = .pending →
        nr.reservation_date ≤ q.reservation_date) ∧
      ∀ r2 ∈ s'.reservations, r2.id = nr.id →
        r2.status = .available ∧ r2.expiry_date = now + 7 * minutesPerDay := by
  obtain ⟨hmem, hbid, hst, hmin⟩ := nextPendingReservation_spec _ _ _ hnext
  have hov : Loan.is_overdue
      { loan with return_date := some now, status := .returned } now = false := by
    unfold Loan.is_overdue
    simp
  have hret : ∃ s', return_book s now uid lid = .ok s' ∧
      s'.reservations = updateReservation s.reservations nr.id
        { nr with
          status := ReservationStatus.available,
          expiry_date := now + 7 * minutesPerDay } := by
    unfold return_book
    rw [hfind]
    dsimp only
    rw [hov]
    simp only [Bool.false_eq_true, if_false]
    rw [hnext]
    exact ⟨_, rfl, rfl⟩
  obtain ⟨s', hr, hres⟩ := hret
  refine ⟨s', hr, hmem, hbid, hst, hmin, ?_⟩
  intro r2 hr2 hid
  rw [hres] at hr2
  unfold updateReservation at hr2
  obtain ⟨x, hx, hxe⟩ := List.mem_map.mp hr2
  by_cases hxid : (x.id == nr.id) = true
  · rw [if_pos hxid] at hxe
    rw [← hxe]
    exact ⟨rfl, rfl⟩
  · rw [if_neg hxid] at hxe
    subst hxe
    exact absurd (by simp [hid]) hxid

/-- Borrow path of promotion: when a copy remains available after the
borrow, the earliest pending reservation is promoted to `available` but its
`expiry_date` is left exactly as it was. -/
theorem borrow_path_promotion (s : State) (now : Int) (uid bid : Nat)
    (book : Book) (nr : Reservation)
    (hfind : s.books.find? (fun b => b.id == bid) = some book)
    (h1 : ¬ book.available_copies ≤ 0)
    (h2 : (s.loans.any (fun l =>
      l.bookId == bid && l.userId == uid && l.status == .active)) = false)
    (h3 : (s.fines.any (fun f => f.userId == uid && f.status == .pending))
      = false)
    (h4 : ¬ 5 ≤ activeLoanCount s uid)
    (hown : s.reservations.find? (fun r =>
      r.bookId == bid && r.userId == uid &&
        (r.status == .pending || r.status == .available)) = none)
    (hnext : nextPendingReservation s.reservations bid = some nr)
    (havail2 : book.available_copies - 1 > 0) :
    ∃ s', borrow_book s now uid bid = .ok s' ∧
      nr ∈ s.reservations ∧ nr.bookId = bid ∧ nr.status = .pending ∧
      (∀ q ∈ s.reservations, q.bookId = bid → q.status = .pending →
        nr.reservation_date ≤ q.reservation_date) ∧
      ∀ r2 ∈ s'.reservations, r2.id = nr.id →
        r2.status = .available ∧ r2.expiry_date = nr.expiry_date := by
  obtain ⟨hmem, hbid, hst, hmin⟩ := nextPendingReservation_spec _ _ _ hnext
  have hret : ∃ s', borrow_book s now uid bid = .ok s' ∧
      s'.reservations = updateReservation s.reservations nr.id
        { nr with status := ReservationStatus.available } := by
    unfold borrow_book
    rw [hfind]
    try dsimp only
    rw [if_neg h1, if_neg (by simp [h2]), if_neg (by simp [h3]), if_neg h4]
    try dsimp only
    rw [hown]
    try dsimp only
    rw [hnext]
    try dsimp only
    rw [if_pos havail2]
    exact ⟨_, rfl, rfl⟩
  obtain ⟨s', hr, hres⟩ := hret
  refine ⟨s', hr, hmem, hbid, hst, hmin, ?_⟩
  intro r2 hr2 hid
  rw [hres] at hr2
  unfold updateReservation at hr2
  obtain ⟨x, hx, hxe⟩ := List.mem_map.mp hr2
  by_cases hxid : (x.id == nr.id) = true
  · rw [if_pos hxid] at hxe
    rw [← hxe]
    exact ⟨rfl, rfl⟩
  · rw [if_neg hxid] at hxe
    subst hxe
    exact absurd (by simp [hid]) hxid

/-- C5 counterexample: a borrow of `c5State` (a copy remains afterwards)
promotes the pending reservation to `available` but leaves its `expiry_date`
at the stale creation-time value 100, which is not now + 7 days — so the
claim that every promotion resets the expiry to now + 7 days is false. -/
theorem borrow_promotion_keeps_stale_expiry :
    (borrow_book c5State (30 * minutesPerDay) 7 0).isOk = true ∧
      (∀ r ∈ (applyOp c5State (Op.borrow (30 * minutesPerDay) 7 0)).reservations,
        r.status = .available ∧ r.expiry_date = 100) ∧
      ¬ (100 : Int) = 30 * minutesPerDay + 7 * minutesPerDay := by
  refine ⟨by decide, by decide, by decide⟩

/-- C5 (amended): both promotion sites pick the `pending` reservation with
the earliest `reservation_date`; the return path resets its `expiry_date` to
now + 7 days, while the borrow path (when a copy is left available) only
flips the status to `available` and keeps the reservation's stored
`expiry_date` unchanged. -/
theorem promotion_takes_earliest_pending :
    (∀ (s : State) (now : Int) (uid lid : Nat) (loan : Loan)
      (nr : Reservation),
      s.loans.find? (fun l =>
        l.id == lid && l.userId == uid && l.status == .active) = some loan →
      nextPendingReservation s.reservations loan.bookId = some nr →
      ∃ s', return_book s now uid lid = .ok s' ∧
        nr ∈ s.reservations ∧ nr.bookId = loan.bookId ∧
        nr.status = .pending ∧
        (∀ q ∈ s.reservations, q.bookId = loan.bookId →
          q.status = .pending → nr.reservation_date ≤ q.reservation_date) ∧
        ∀ r2 ∈ s'.reservations, r2.id = nr.id →
          r2.status = .available ∧
            r2.expiry_date = now + 7 * minutesPerDay) ∧
    (∀ (s : State) (now : Int) (uid bid : Nat) (book : Book)
      (nr : Reservation),
      s.books.find? (fun b => b.id == bid) = some book →
      ¬ book.available_copies ≤ 0 →
      (s.loans.any (fun l =>
        l.bookId == bid && l.userId == uid && l.status == .active)) = false →
      (s.fines.any (fun f => f.userId == uid && f.status == .pending))
        = false →
      ¬ 5 ≤ activeLoanCount s uid →
      s.reservations.find? (fun r =>
        r.bookId == bid && r.userId == uid &&
          (r.status == .pending || r.status == .available)) = none →
      nextPendingReservation s.reservations bid = some nr →
      book.available_copies - 1 > 0 →
      ∃ s', borrow_book s now uid bid = .ok s' ∧
        nr ∈ s.reservations ∧ nr.bookId = bid ∧ nr.status = .pending ∧
        (∀ q ∈ s.reservations, q.bookId = bid → q.status = .pending →
          nr.reservation_date ≤ q.reservation_date) ∧
        ∀ r2 ∈ s'.reservations, r2.id = nr.id →
          r2.status = .available ∧ r2.expiry_date = nr.expiry_date) :=
  ⟨fun s now uid lid loan nr hfind hnext =>
      return_path_promotion s now uid lid loan nr hfind hnext,
   fun s now uid bid book nr hfind h1 h2 h3 h4 hown hnext havail2 =>
      borrow_path_promotion s now uid bid book nr hfind h1 h2 h3 h4 hown
        hnext havail2⟩

/-- Witness for the amended C5: in `c5wState` a return promotes the earlier
of two pending reservations (id 4, reserved at 5) with a fresh expiry; in
`c5State` a borrow promotes the pending reservation keeping expiry 100. -/
theorem promotion_takes_earliest_pending_witness :
    (∃ s', return_book c5wState (10 * minutesPerDay) 7 1 = .ok s' ∧
      (⟨4, 0, 9, 5, 100, .pending, false⟩ : Reservation) ∈
        c5wState.reservations ∧
      (⟨4, 0, 9, 5, 100, .pending, false⟩ : Reservation).bookId =
        (⟨1, 0, 7, 0, 14 * minutesPerDay, none, .active, 0, 0⟩ : Loan).bookId ∧
      (⟨4, 0, 9, 5, 100, .pending, false⟩ : Reservation).status = .pending ∧
      (∀ q ∈ c5wState.reservations,
        q.bookId =
          (⟨1, 0, 7, 0, 14 * minutesPerDay, none, .active, 0, 0⟩ : Loan).bookId →
        q.status = .pending →
        (⟨4, 0, 9, 5, 100, .pending, false⟩ : Reservation).reservation_date ≤
          q.reservation_date) ∧
      ∀ r2 ∈ s'.reservations,
        r2.id = (⟨4, 0, 9, 5, 100, .pending, false⟩ : Reservation).id →
        r2.status = .available ∧
          r2.expiry_date = 10 * minutesPerDay + 7 * minutesPerDay) ∧
    (∃ s', borrow_book c5State (30 * minutesPerDay) 7 0 = .ok s' ∧
      (⟨4, 0, 9, 5, 100, .pending, false⟩ : Reservation) ∈
        c5State.reservations ∧
      (⟨4, 0, 9, 5, 100, .pending, false⟩ : Reservation).bookId = 0 ∧
      (⟨4, 0, 9, 5, 100, .pending, false⟩ : Reservation).status = .pending ∧
      (∀ q ∈ c5State.reservations, q.bookId = 0 → q.status = .pending →
        (⟨4, 0, 9, 5, 100, .pending, false⟩ : Reservation).reservation_date ≤
          q.reservation_date) ∧
      ∀ r2 ∈ s'.reservations,
        r2.id = (⟨4, 0, 9, 5, 100, .pending, false⟩ : Reservation).id →
        r2.status = .available ∧
          r2.expiry_date =
            (⟨4, 0, 9, 5, 100, .pending, false⟩ : Reservation).expiry_date) :=
  ⟨promotion_takes_earliest_pending.1 c5wState (10 * minutesPerDay) 7 1
      ⟨1, 0, 7, 0, 14 * minutesPerDay, none, .active, 0, 0⟩
      ⟨4, 0, 9, 5, 100, .pending, false⟩ (by decide) (by decide),
   promotion_takes_earliest_pending.2 c5State (30 * minutesPerDay) 7 0
      ⟨0, "B", 3, 2⟩ ⟨4, 0, 9, 5, 100, .pending, false⟩ (by decide)
      (by decide) (by decide) (by decide) (by decide) (by decide) (by decide)
      (by decide)⟩

/-- A sweep step on an active overdue loan with no existing Fine row for the
pair creates exactly one, with amount equal to the days overdue. -/
theorem sweepLoanStep_creates_fine (now : Int) (uid : Nat) (sA : State)
    (l : Loan) (hcond : sweepCond now l = true) (hact : l.status = .active)
    (hov : l.is_overdue now = true)
    (hdays : 0 < dateOf now - dateOf l.due_date)
    (hA : (sA.fines.filter (fun f => f.userId == uid && f.loanId == l.id))
      = []) :
    ∃ f : Fine, ((sweepLoanStep now uid sA l).fines.filter
        (fun f => f.userId == uid && f.loanId == l.id)) = [f] ∧
      f.amount = dateOf now - dateOf l.due_date ∧ f.status = .pending := by
  have hanyA : (sA.fines.any
      (fun f => f.userId == uid && f.loanId == l.id)) = false := by
    rw [List.any_eq_false]
    intro f hf
    exact List.filter_eq_nil_iff.mp hA f hf
  unfold sweepLoanStep
  rw [if_pos hcond]
  try dsimp only
  rw [calculate_fine_pos l now hact hov]
  try dsimp only
  rw [if_pos hdays]
  unfold upsertFine
  rw [if_neg (by simp [hanyA])]
  try dsimp only
  refine ⟨⟨sA.nextFineId, uid, l.id, dateOf now - dateOf l.due_date, "Late return of \"" ++ bookTitle sA l.bookId ++ "\"", now, .pending⟩, ?_, rfl, rfl⟩
  rw [List.filter_append, hA]
  simp

/-- C3 counterexample: the sweep at day 16 records a Fine of 2 for the loan
due on day 14; a second sweep at day 19 — when the loan is 5 days overdue —
leaves the amount at 2, because the loan's status is no longer `active`.  So
the recorded amount does not equal the current days-overdue times 1.00. -/
theorem fine_amount_not_days_overdue_now :
    finesFor (my_loans (my_loans c3State (16 * minutesPerDay) 7)
        (19 * minutesPerDay) 7) 7 1
      = [⟨1, 7, 1, 2, "Late return of \"B\"", 16 * minutesPerDay, .pending⟩] ∧
    dateOf (19 * minutesPerDay) - dateOf (14 * minutesPerDay) = 5 ∧
    ¬ (2 : Int) = 5 := by
  refine ⟨by decide, by decide, by decide⟩

/-- C3 (amended): the sweep that first detects an active overdue loan
records exactly one `Fine` for the `(borrower, loan)` pair, with amount
equal to the days overdue at that moment; that sweep flips the loan to
status `overdue`, so every later sweep skips the loan and leaves the Fine
unchanged — the amount is constant (hence non-decreasing) but is not
recomputed to the days overdue as of now. -/
theorem overdue_fine_set_once (s : State) (t1 t2 : Int) (uid : Nat) (l : Loan)
    (hn : loanIdsNodup s) (hl : l ∈ s.loans) (hu : l.userId = uid)
    (hact : l.status = .active) (hov : l.is_overdue t1 = true)
    (hdays : 0 < dateOf t1 - dateOf l.due_date)
    (hnofine : finesFor s uid l.id = []) :
    ∃ f : Fine, finesFor (my_loans s t1 uid) uid l.id = [f] ∧
      f.amount = dateOf t1 - dateOf l.due_date ∧ f.status = .pending ∧
      finesFor (my_loans (my_loans s t1 uid) t2 uid) uid l.id = [f] := by
  have hcond : sweepCond t1 l = true := (sweepCond_iff t1 l).mpr ⟨hact, hov⟩
  have hlL : l ∈ s.loans.filter (fun p => p.userId == uid) :=
    List.mem_filter.mpr ⟨hl, by simp [hu]⟩
  obtain ⟨L1, L2, hsplit⟩ := List.append_of_mem hlL
  have hnF : ((s.loans.filter (fun p => p.userId == uid)).map Loan.id).Nodup :=
    ((List.filter_sublist _).map Loan.id).nodup hn
  rw [hsplit, List.map_append, List.map_cons] at hnF
  have hm := List.nodup_middle.mp hnF
  have hnotin := (List.nodup_cons.mp hm).1
  have hL1 : ∀ p ∈ L1, p.id ≠ l.id := by
    intro p hp he
    exact hnotin (List.mem_append.mpr (Or.inl (List.mem_map.mpr ⟨p, hp, he⟩)))
  have hL2 : ∀ p ∈ L2, p.id ≠ l.id := by
    intro p hp he
    exact hnotin (List.mem_append.mpr (Or.inr (List.mem_map.mpr ⟨p, hp, he⟩)))
  have hML : my_loans s t1 uid =
      L2.foldl (sweepLoanStep t1 uid)
        (sweepLoanStep t1 uid (L1.foldl (sweepLoanStep t1 uid) s) l) := by
    unfold my_loans
    rw [hsplit, List.foldl_append, List.foldl_cons]
  have hA : ((L1.foldl (sweepLoanStep t1 uid) s).fines.filter
      (fun f => f.userId == uid && f.loanId == l.id)) = [] := by
    rw [sweep_fold_finesFor t1 uid l.id L1 s (fun p hp _ => hL1 p hp)]
    exact hnofine
  obtain ⟨f, hfs, hfa, hfp⟩ :=
    sweepLoanStep_creates_fine t1 uid (L1.foldl (sweepLoanStep t1 uid) s) l
      hcond hact hov hdays hA
  have hB : finesFor (my_loans s t1 uid) uid l.id = [f] := by
    unfold finesFor
    rw [hML]
    rw [sweep_fold_finesFor t1 uid l.id L2 _ (fun p hp _ => hL2 p hp)]
    exact hfs
  have hover := my_loans_overdue_at s t1 uid l hl hu hcond
  have hskip : ∀ p ∈ (my_loans s t1 uid).loans.filter
      (fun q => q.userId == uid), sweepCond t2 p = true → p.id ≠ l.id := by
    intro p hp hc he
    have hpm := (List.mem_filter.mp hp).1
    have hst := hover p hpm he
    obtain ⟨ha, _⟩ := (sweepCond_iff t2 p).mp hc
    rw [hst] at ha
    cases ha
  have hC : finesFor (my_loans (my_loans s t1 uid) t2 uid) uid l.id = [f] := by
    have he : finesFor (my_loans (my_loans s t1 uid) t2 uid) uid l.id
        = finesFor (my_loans s t1 uid) uid l.id := by
      unfold finesFor
      exact sweep_fold_finesFor t2 uid l.id _ _ hskip
    rw [he]
    exact hB
  exact ⟨f, hB, hfa, hfp, hC⟩

/-- Witness for the amended C3: in `c3State` the sweep at day 16 creates the
single Fine with amount 2 (two days overdue), and the sweep at day 19 leaves
it untouched. -/
theorem overdue_fine_set_once_witness :
    loanIdsNodup c3State ∧
      (∃ f : Fine, finesFor (my_loans c3State (16 * minutesPerDay) 7) 7 1
          = [f] ∧
        f.amount = dateOf (16 * minutesPerDay) - dateOf (14 * minutesPerDay) ∧
        f.status = .pending ∧
        finesFor (my_loans (my_loans c3State (16 * minutesPerDay) 7)
          (19 * minutesPerDay) 7) 7 1 = [f]) :=
  ⟨by decide,
    overdue_fine_set_once c3State (16 * minutesPerDay) (19 * minutesPerDay) 7
      ⟨1, 0, 7, 0, 14 * minutesPerDay, none, .active, 0, 0⟩ (by decide)
      (by decide) (by decide) (by decide) (by decide) (by decide) (by decide)⟩

/-- C1 counterexample: `c1State` satisfies the invariant exactly as the
specification states it (available = total − count of `active` loans), but
after the overdue sweep — one of the listed engine operations — it no longer
does: the sweep turned the active loan into an `overdue` one without
touching `available_copies`. -/
theorem sweep_breaks_active_only_invariant :
    specInvariant c1State ∧
      ¬ specInvariant (applyOp c1State
        (Op.overdueSweep (16 * minutesPerDay) 7)) := by
  refine ⟨by decide, by decide⟩

/-- C1 (amended): every engine operation — borrow, return, renew, reserve,
cancel, overdue sweep and expiry sweep — preserves the invariant
`available_copies = total_copies − count(loans with status active or
overdue)` for every book, assuming distinct loan primary keys. -/
theorem engine_preserves_copies_invariant (s : State) (op : Op)
    (hn : loanIdsNodup s) (hinv : copiesInvariant s) :
    copiesInvariant (applyOp s op) := by
  cases op with
  | borrow now uid bid =>
    show copiesInvariant (match borrow_book s now uid bid with
      | .ok s2 => s2
      | .error _ => s)
    cases hres : borrow_book s now uid bid with
    | ok s2 => exact copiesInvariant_borrow s now uid bid s2 hres hinv
    | error e => exact hinv
  | ret now uid lid =>
    show copiesInvariant (match return_book s now uid lid with
      | .ok s2 => s2
      | .error _ => s)
    cases hres : return_book s now uid lid with
    | ok s2 => exact copiesInvariant_return s now uid lid s2 hres hn hinv
    | error e => exact hinv
  | renew now lid => exact copiesInvariant_renew s now lid hn hinv
  | reserve now uid bid =>
    show copiesInvariant (match reserve_book s now uid bid with
      | .ok s2 => s2
      | .error _ => s)
    cases hres : reserve_book s now uid bid with
    | ok s2 =>
      obtain ⟨hb, hl⟩ := reserve_book_ok_shape s now uid bid s2 hres
      exact copiesInvariant_of_eq s s2 hb hl hinv
    | error e => exact hinv
  | cancel uid rid =>
    show copiesInvariant (match cancel_reservation s uid rid with
      | .ok s2 => s2
      | .error _ => s)
    cases hres : cancel_reservation s uid rid with
    | ok s2 =>
      obtain ⟨hb, hl⟩ := cancel_reservation_ok_shape s uid rid s2 hres
      exact copiesInvariant_of_eq s s2 hb hl hinv
    | error e => exact hinv
  | overdueSweep now uid => exact copiesInvariant_my_loans s now uid hn hinv
  | expireSweep now uid =>
    exact copiesInvariant_of_eq s _ (my_reservations_books s now uid)
      (my_reservations_loans s now uid) hinv

/-- Witness for the amended C1: `c1State` satisfies the amended invariant
and still satisfies it after the overdue sweep that breaks the original
`active`-only formulation. -/
theorem engine_preserves_copies_invariant_witness :
    loanIdsNodup c1State ∧ copiesInvariant c1State ∧
      copiesInvariant (applyOp c1State
        (Op.overdueSweep (16 * minutesPerDay) 7)) :=
  ⟨by decide, by decide,
    engine_preserves_copies_invariant c1State
      (Op.overdueSweep (16 * minutesPerDay) 7) (by decide) (by decide)⟩

end LibraryApp
